import Mathlib

/-!
Shallow embedding of the Aegis bridge pipeline orchestration layer.

The definitions below are translated from the Python sources:
  * `src/bridge/audio.py`   — PCM/WAV codec, silence detection, RMS
  * `src/bridge/main.py`    — websocket segmenter loop, sentence streaming,
                              TTS frame transmission (`process_pipeline`)
  * `src/bridge/claude_client.py` — model selection and the streamed
                              tool-use conversation loop (`get_response`)
  * `src/bridge/tools/registry.py` — tool dispatch (`execute_tool`)

Machine integers are modelled as `Nat`/`Int`; raw byte strings as
`List Nat` with each element in 0–255; fallible Python code (raising
paths) returns `Option`/an explicit error constructor.  Floating point
averages/RMS values are modelled exactly over `Rat`: the code only
compares `sum/len` and `sqrt (sumsq/len)` against integer thresholds,
and both comparisons are order-isomorphic to exact rational comparisons
(for the RMS we compare the mean square against the squared threshold,
using that `Real.sqrt` is monotone).
-/

/-- A byte of raw PCM data (value 0–255). -/
abbrev Byte := Nat

/-- Little-endian signed 16-bit decode of two bytes, as done by
`struct.unpack("<…h", …)`: value `lo + 256*hi`, reinterpreted as a signed
16-bit integer. -/
def toInt16 (lo hi : Byte) : Int :=
  let u := lo + 256 * hi
  if u < 32768 then (u : Int) else (u : Int) - 65536

/-- Model of `struct.unpack(f"<{len(b)//2}h", b)`: decode a byte string into
little-endian signed 16-bit samples.  `none` models the `struct.error`
raised when the byte string has odd length (the format requires exactly
`2 * (len // 2)` bytes). -/
def unpack16 : List Byte → Option (List Int)
  | [] => some []
  | [_] => none
  | lo :: hi :: rest => (unpack16 rest).map (fun s => toInt16 lo hi :: s)

/-- `detect_silence` from `src/bridge/audio.py`: chunks shorter than 4 bytes
are reported silent; otherwise the chunk is silent iff the average absolute
sample amplitude is below the threshold.  The float comparison
`sum(abs s)/n < threshold` is modelled exactly as `sum(abs s) < threshold * n`.
`none` models the `struct.error` raised on an odd-length chunk of length ≥ 4. -/
def detect_silence (pcm_chunk : List Byte) (threshold : Nat) : Option Bool :=
  if pcm_chunk.length < 4 then some true
  else
    match unpack16 pcm_chunk with
    | none => none
    | some samples =>
        some (decide ((samples.map Int.natAbs).sum < threshold * samples.length))

/-- `calculate_rms` from `src/bridge/audio.py`, modelled by its square: the
code returns `sqrt (sum (s*s) / n)` (and `0.0` for chunks shorter than
4 bytes).  We return the mean square `sum (s*s) / n` as an exact rational;
all uses in the repository compare the RMS against a nonnegative integer
threshold `t`, which is equivalent to comparing this value against `t^2`
because `Real.sqrt` is monotone.  `none` models the `struct.error` raised
on an odd-length chunk of length ≥ 4. -/
def calculate_rms_sq (pcm_chunk : List Byte) : Option Rat :=
  if pcm_chunk.length < 4 then some 0
  else
    match unpack16 pcm_chunk with
    | none => none
    | some samples =>
        some ((((samples.map (fun s => s * s)).sum : Int) : Rat) / (samples.length : Rat))

/-- Little-endian 16-bit encoding used by the `wave` writer. -/
def u16le (n : Nat) : List Byte := [n % 256, n / 256 % 256]

/-- Little-endian 32-bit encoding used by the `wave` writer. -/
def u32le (n : Nat) : List Byte :=
  [n % 256, n / 256 % 256, n / 65536 % 256, n / 16777216 % 256]

/-- Little-endian 16-bit decode. -/
def le16 (b0 b1 : Byte) : Nat := b0 + 256 * b1

/-- Little-endian 32-bit decode. -/
def le32 (b0 b1 b2 b3 : Byte) : Nat :=
  b0 + 256 * b1 + 65536 * b2 + 16777216 * b3

/-- The canonical PCM WAV header written by CPython's `wave` module for a
seekable stream: RIFF header, a 16-byte `fmt ` chunk with format tag 1
(PCM), and the `data` chunk header.  `sr` is the sample rate, `ch` the
channel count, sample width is fixed to 2 bytes by `pcm_to_wav`. -/
def wav_header (sr ch dataLen : Nat) : List Byte :=
  [0x52, 0x49, 0x46, 0x46] ++ u32le (36 + dataLen) ++
  [0x57, 0x41, 0x56, 0x45] ++
  [0x66, 0x6d, 0x74, 0x20] ++ u32le 16 ++ u16le 1 ++ u16le ch ++
  u32le sr ++ u32le (sr * ch * 2) ++ u16le (ch * 2) ++ u16le 16 ++
  [0x64, 0x61, 0x74, 0x61] ++ u32le dataLen

/-- Default audio settings from `src/bridge/config.py` (`sample_rate`,
`channels`). -/
def settings_sample_rate : Nat := 16000

/-- Default channel count from `src/bridge/config.py`. -/
def settings_channels : Nat := 1

/-- `pcm_to_wav` from `src/bridge/audio.py`: wrap raw 16-bit PCM in a WAV
container (sample width 2).  The `wave` writer on a `BytesIO` emits the
canonical 44-byte header followed by the data passed to `writeframes`. -/
def pcm_to_wav (pcm_data : List Byte) (sr ch : Nat) : List Byte :=
  wav_header sr ch pcm_data.length ++ pcm_data

/-- `wav_to_pcm` from `src/bridge/audio.py`: parse the WAV container and
return `readframes(getnframes())`, i.e. the first `nframes * framesize`
bytes of the data chunk, where `framesize = channels * sampwidth` and
`nframes = dataLen / framesize`.  Modelled for the canonical
single-`fmt `-then-`data` layout produced by the writer; any other shape
raises inside `wave.open` and the function returns `None` (here `none`). -/
def wav_to_pcm : List Byte → Option (List Byte)
  | 0x52 :: 0x49 :: 0x46 :: 0x46 :: _ :: _ :: _ :: _ ::
    0x57 :: 0x41 :: 0x56 :: 0x45 ::
    0x66 :: 0x6d :: 0x74 :: 0x20 :: 16 :: 0 :: 0 :: 0 ::
    f0 :: f1 :: c0 :: c1 :: _ :: _ :: _ :: _ :: _ :: _ :: _ :: _ ::
    _ :: _ :: w0 :: w1 ::
    0x64 :: 0x61 :: 0x74 :: 0x61 :: d0 :: d1 :: d2 :: d3 :: rest =>
      if le16 f0 f1 = 1 ∧ 0 < le16 c0 c1 ∧ 0 < le16 w0 w1 then
        let sampwidth := (le16 w0 w1 + 7) / 8
        let framesize := le16 c0 c1 * sampwidth
        if 0 < framesize then
          some (rest.take (le32 d0 d1 d2 d3 / framesize * framesize))
        else none
      else none
  | _ => none

/-- Python's `\s` (and `str.strip()`) whitespace class, restricted to the
ASCII range used by the pipeline: space, tab, newline, carriage return,
vertical tab, form feed. -/
def pyIsSpace (c : Char) : Bool :=
  c == ' ' || c == '\t' || c == '\n' || c == '\r' ||
  c == Char.ofNat 11 || c == Char.ofNat 12

/-- A sentence-terminator character of the regex `(?<=[.!?])\s+`. -/
def isBoundaryChar (c : Char) : Bool :=
  c == '.' || c == '!' || c == '?'

/-- Worker for `re.split(r"(?<=[.!?])\s+", s)`.  The separators of that
regex are exactly the maximal whitespace runs whose first character is
immediately preceded by `.`, `!` or `?`; the separators are consumed.
`prevB` records whether the previous character was a terminator, `inSep`
whether we are inside a separator run, `acc` is the current piece in
reverse. -/
def splitGo : Bool → Bool → List Char → List Char → List (List Char)
  | _, _, [], acc => [acc.reverse]
  | _, true, c :: rest, acc =>
      if pyIsSpace c then splitGo false true rest acc
      else splitGo (isBoundaryChar c) false rest (c :: acc)
  | prevB, false, c :: rest, acc =>
      if prevB && pyIsSpace c then acc.reverse :: splitGo false true rest []
      else splitGo (isBoundaryChar c) false rest (c :: acc)

/-- `re.split(r"(?<=[.!?])\s+", s)` as used in `process_pipeline`
(`src/bridge/main.py`), over the accumulated sentence buffer. -/
def re_split_sentence (s : List Char) : List (List Char) :=
  splitGo false false s []

/-- Python `str.strip()`: drop leading and trailing whitespace. -/
def pyStrip (s : List Char) : List Char :=
  ((s.dropWhile pyIsSpace).reverse.dropWhile pyIsSpace).reverse

/-- One iteration of the sentence-boundary extraction in
`process_pipeline`: append the chunk to the sentence buffer, split on
sentence boundaries; if at least one complete sentence exists, yield the
stripped non-empty complete sentences (all pieces but the last) and keep
the incomplete tail as the new buffer. -/
def sentence_step (buffer chunk : List Char) : List (List Char) × List Char :=
  let sentences := re_split_sentence (buffer ++ chunk)
  if 1 < sentences.length then
    (((sentences.dropLast).map pyStrip).filter (fun s => !s.isEmpty),
     sentences.getLastD [])
  else ([], buffer ++ chunk)

/-- Fold `sentence_step` over a whole stream of text chunks, starting from
an empty buffer; returns all yielded sentences in order plus the final
buffer. -/
def sentence_run (chunks : List (List Char)) : List (List Char) × List Char :=
  chunks.foldl
    (fun st chunk =>
      let r := sentence_step st.2 chunk
      (st.1 ++ r.1, r.2))
    ([], [])

/-- All sentences yielded over a stream, including the trailing buffer
flushed (stripped, if non-empty) at end of stream — the
`if sentence_buffer.strip():` epilogue of `process_pipeline`. -/
def sentence_yields (chunks : List (List Char)) : List (List Char) :=
  let r := sentence_run chunks
  r.1 ++ (if (pyStrip r.2).isEmpty then [] else [pyStrip r.2])

/-- All characters of a character list that are not Python whitespace. -/
def removeSpaces (l : List Char) : List Char :=
  l.filter (fun c => !(pyIsSpace c))

/-- Does `hay` start with `needle`? -/
def listPrefix : List Char → List Char → Bool
  | [], _ => true
  | _ :: _, [] => false
  | x :: xs, y :: ys => x == y && listPrefix xs ys

/-- Python's substring test `needle in hay`. -/
def containsSub (needle : List Char) : List Char → Bool
  | [] => listPrefix needle []
  | c :: rest => listPrefix needle (c :: rest) || containsSub needle rest

/-- An apostrophe character (ASCII 39). -/
def apos : Char := Char.ofNat 39

/-- `OPUS_TRIGGERS` from `src/bridge/claude_client.py`. -/
def OPUS_TRIGGERS : List (List Char) :=
  ["analyze".toList, "pattern".toList, "trend".toList, "plan".toList,
   "correlat".toList, "compare".toList,
   "why am i".toList, "why do i".toList,
   "what".toList ++ [apos] ++ "s causing".toList,
   "relationship between".toList,
   "over time".toList, "savings goal".toList, "financial plan".toList,
   "budget plan".toList]

/-- `settings.claude_haiku_model` default from `src/bridge/config.py`. -/
def claude_haiku_model : String := "claude-haiku-4-5-20251001"

/-- `settings.claude_opus_model` default from `src/bridge/config.py`. -/
def claude_opus_model : String := "claude-opus-4-6"

/-- `select_model` from `src/bridge/claude_client.py`: lowercase the user
text; if any trigger occurs as a substring, route to the Opus model,
otherwise to the Haiku model. -/
def select_model (user_text : String) : String :=
  let text_lower := user_text.toList.map Char.toLower
  if OPUS_TRIGGERS.any (fun trigger => containsSub trigger text_lower) then
    claude_opus_model
  else claude_haiku_model

/-- Result of running a piece of Python code: a normal value or a raised
exception carrying the exception class name. -/
inductive PyResult (α : Type) where
  | ok : α → PyResult α
  | exn : String → PyResult α
deriving DecidableEq, Repr

/-- A tool handler as callable from `execute_tool`: its keyword-parameter
signature (required and optional parameter names, from
`src/bridge/tools/health.py` and `wealth.py`) and its body.  The body is
abstract — the real bodies perform database access — and returns the
JSON-dumped result string (or raises). -/
structure PyHandler where
  required : List String
  optional : List String
  body : List (String × String) → PyResult String

/-- `json.dumps({"error": f"Unknown tool: {name}"})`. -/
def unknown_tool_payload (name : String) : String :=
  "\x7b\"error\": \"Unknown tool: " ++ name ++ "\"\x7d"

/-- Python keyword binding `handler(**arguments)` succeeds iff every
provided key is a declared parameter and every required parameter is
provided; otherwise the call raises `TypeError` before the body runs. -/
def kwargsBindOk (h : PyHandler) (arguments : List (String × String)) : Bool :=
  arguments.all (fun kv => h.required.contains kv.1 || h.optional.contains kv.1) &&
  h.required.all (fun k => (arguments.map Prod.fst).contains k)

/-- `execute_tool` from `src/bridge/tools/registry.py`: look the name up in
`HANDLERS`; an unknown name returns the structured error payload; a known
name is invoked as `handler(**arguments)` with no surrounding
`try`/`except`, so a binding failure or an exception from the body
propagates out of `execute_tool`. -/
def execute_tool (handlers : List (String × PyHandler)) (name : String)
    (arguments : List (String × String)) : PyResult String :=
  match handlers.lookup name with
  | none => .ok (unknown_tool_payload name)
  | some h =>
      if kwargsBindOk h arguments then h.body arguments
      else .exn "TypeError"

/-- The keyword signatures of the handlers wired into `HANDLERS` in
`src/bridge/tools/registry.py`, taken from the `async def` signatures in
`src/bridge/tools/health.py` and `src/bridge/tools/wealth.py`; the bodies
are abstracted by the given function.  (`save_user_insight` is listed in
`HANDLERS` but `health.save_user_insight` does not exist in the source,
so it is not modelled here.) -/
def aegis_handlers (body : String → List (String × String) → PyResult String) :
    List (String × PyHandler) :=
  [("get_health_context", ⟨[], ["days", "metrics"], body "get_health_context"⟩),
   ("log_health", ⟨["metric", "value"], ["notes"], body "log_health"⟩),
   ("analyze_health_patterns", ⟨["query"], ["days"], body "analyze_health_patterns"⟩),
   ("track_expense", ⟨["amount", "category"], ["description"], body "track_expense"⟩),
   ("get_spending_summary", ⟨[], ["days", "category"], body "get_spending_summary"⟩),
   ("calculate_savings_goal",
    ⟨["target_amount", "target_months"], ["monthly_income"], body "calculate_savings_goal"⟩)]

/-- A message of the conversation history (`role`, opaque content). -/
structure Msg where
  role : String
  content : String
deriving DecidableEq, Repr

/-- A tool-use block accumulated from the stream in `get_response`. -/
structure ToolUse where
  id : String
  name : String
  input_json : String
deriving DecidableEq, Repr

/-- What one streamed request to the model provider produces, from the
point of view of the `get_response` loop: the concatenated text deltas
yielded during the round, the accumulated tool-use blocks, and the final
assistant content blocks (opaque) appended to `messages` when tools ran. -/
structure StreamRound where
  text : String
  tools : List ToolUse
  content : String
deriving Repr

/-- One request issued to the model provider: the model id selected for
the turn and the message list sent. -/
structure ModelRequest where
  model : String
  messages : List Msg
deriving DecidableEq, Repr

/-- `max_tool_rounds` from `ClaudeClient.get_response`. -/
def max_tool_rounds : Nat := 5

/-- The synthetic `user` message carrying the tool results of a round
(`tool_results` list in the source); each tool call is resolved through
the executor (`execute_tool`, here abstracted as a total function — the
raising path is modelled separately by `execute_tool` above). -/
def tool_results_content (executor : String → String → String)
    (tools : List ToolUse) : String :=
  String.join (tools.map (fun t => executor t.name t.input_json))

/-- The tool-use round loop of `ClaudeClient.get_response`
(`for tool_round in range(max_tool_rounds)`): each iteration issues one
streaming request, accumulates the yielded text into `full_response`, and
stops if the round produced no tool-use blocks; otherwise it appends the
assistant content and the tool results to `messages` and continues.
Returns the requests issued and the final `full_response`. -/
def get_response_go (provider : ModelRequest → StreamRound)
    (executor : String → String → String) (model : String) :
    Nat → List Msg → String → List ModelRequest → List ModelRequest × String
  | 0, _, acc, reqs => (reqs, acc)
  | fuel + 1, messages, acc, reqs =>
      let req : ModelRequest := ⟨model, messages⟩
      let r := provider req
      let acc2 := acc ++ r.text
      let reqs2 := reqs ++ [req]
      if r.tools.isEmpty then (reqs2, acc2)
      else
        get_response_go provider executor model fuel
          (messages ++ [⟨"assistant", r.content⟩,
                        ⟨"user", tool_results_content executor r.tools⟩])
          acc2 reqs2

/-- The history-truncation epilogue of `get_response`:
`if len(self.conversation_history) > 40: self.conversation_history =
self.conversation_history[-20:]`. -/
def truncate_history (h : List Msg) : List Msg :=
  if 40 < h.length then h.drop (h.length - 20) else h

/-- The outcome of one turn of `ClaudeClient.get_response`: the provider
requests issued, the full response text (which is also what the turn
yields downstream, concatenated), and the updated conversation history. -/
structure TurnOut where
  requests : List ModelRequest
  response : String
  history : List Msg

/-- One full turn of `ClaudeClient.get_response`: append the user message
to the history, select the model once for the turn, run the bounded
tool-use loop, append the full assistant response to the history and
truncate it. -/
def get_response (provider : ModelRequest → StreamRound)
    (executor : String → String → String)
    (history : List Msg) (user_text : String) : TurnOut :=
  let hist1 := history ++ [⟨"user", user_text⟩]
  let model := select_model user_text
  let r := get_response_go provider executor model max_tool_rounds hist1 "" []
  ⟨r.1, r.2, truncate_history (hist1 ++ [⟨"assistant", r.2⟩])⟩

/-- Several completed turns of `get_response` against the same client
object, threading the conversation history. -/
def run_turns (provider : ModelRequest → StreamRound)
    (executor : String → String → String)
    (history : List Msg) (turns : List String) : List Msg :=
  turns.foldl (fun h t => (get_response provider executor h t).history) history

/-- The segmenter configuration read from `settings` in `audio_websocket`
(`SILENCE_CHUNKS_TO_STOP`, `MAX_RECORDING_MS`). -/
structure SegConfig where
  silence_chunks_to_stop : Nat
  max_recording_time_ms : Nat

/-- Defaults from `src/bridge/config.py`: 8 chunks, 10000 ms. -/
def default_seg_config : SegConfig := ⟨8, 10000⟩

/-- Per-connection segmenter state of `audio_websocket`:
`audio_buffer`, `silence_counter`, `is_recording`, `recording_start`
(milliseconds, modelled as `Nat`). -/
structure SegState where
  audio_buffer : List Byte
  silence_counter : Nat
  is_recording : Bool
  recording_start : Nat
deriving DecidableEq, Repr

/-- What one binary-frame iteration of `audio_websocket` does that is
visible outside: the successor state, the utterance buffer handed to
`process_pipeline` (if any), and the status JSON messages sent to the
client by this part of the loop. -/
structure SegOut where
  state : SegState
  utterance : Option (List Byte)
  statuses : List String
deriving DecidableEq, Repr

/-- The silence counter after one frame: increment on a silent frame,
reset to zero on a non-silent frame, and force to the stop threshold when
the elapsed recording time exceeds the maximum (`elapsed_ms >
MAX_RECORDING_MS`).  `none` models the `struct.error` of
`detect_silence` on an odd-length frame. -/
def seg_counter (cfg : SegConfig) (st : SegState) (now : Nat)
    (pcm_chunk : List Byte) : Option Nat :=
  let start := if st.is_recording then st.recording_start else now
  (detect_silence pcm_chunk 500).map (fun is_silent =>
    let c := if is_silent then st.silence_counter + 1 else 0
    if cfg.max_recording_time_ms < now - start then cfg.silence_chunks_to_stop
    else c)

/-- `MIN_SPEECH_RMS = 800` squared: the guard `rms < 800` is modelled as
`calculate_rms_sq < 640000` (squares; `Real.sqrt` is monotone). -/
def min_speech_rms_sq : Rat := 640000

/-- `MIN_RECORDING_MS` from `process_pipeline`'s caller in
`audio_websocket`. -/
def min_recording_ms : Nat := 500

/-- One binary-frame iteration of the `audio_websocket` loop
(`src/bridge/main.py`, the `"bytes" in data` branch): extend the buffer,
start recording on the first frame, update the silence counter, and when
the end-of-speech condition fires (counter at threshold and more than
3200 buffered bytes) apply the two false-trigger guards — minimum buffer
RMS first, then minimum recording duration — discarding the buffer
silently if either fails, and otherwise hand the buffer to the pipeline
between a `processing` and an `idle` status message.  `none` models an
uncaught exception (odd-length `struct.unpack`). -/
def audio_step (cfg : SegConfig) (st : SegState) (now : Nat)
    (pcm_chunk : List Byte) : Option SegOut :=
  let buffer := st.audio_buffer ++ pcm_chunk
  let start := if st.is_recording then st.recording_start else now
  let elapsed := now - start
  match seg_counter cfg st now pcm_chunk with
  | none => none
  | some counter =>
      if cfg.silence_chunks_to_stop ≤ counter ∧ 3200 < buffer.length then
        match calculate_rms_sq buffer with
        | none => none
        | some rms_sq =>
            if rms_sq < min_speech_rms_sq then
              some ⟨⟨[], 0, false, start⟩, none, []⟩
            else if elapsed < min_recording_ms then
              some ⟨⟨[], 0, false, start⟩, none, []⟩
            else
              some ⟨⟨[], 0, false, start⟩, some buffer, ["processing", "idle"]⟩
      else
        some ⟨⟨buffer, counter, true, start⟩, none, []⟩

/-- Run the `audio_websocket` loop over a sequence of timestamped binary
frames, collecting each step's utterance emission. -/
def audio_run (cfg : SegConfig) :
    SegState → List (Nat × List Byte) → Option (SegState × List (Option (List Byte)))
  | st, [] => some (st, [])
  | st, (now, chunk) :: rest =>
      match audio_step cfg st now chunk with
      | none => none
      | some out =>
          match audio_run cfg out.state rest with
          | none => none
          | some (fin, ems) => some (fin, out.utterance :: ems)

/-- The idle per-connection state at the top of `audio_websocket`. -/
def idle_state : SegState := ⟨[], 0, false, 0⟩

/-- The TTS transport chunking of `process_pipeline`
(`for i in range(0, len(pcm_audio), chunk_size)` with
`chunk_size = 6400`): the synthesized buffer is sent as successive
6400-byte slices; the final slice is whatever remains (no padding). -/
def tts_frames (pcm_audio : List Byte) : List (List Byte) :=
  if h : pcm_audio = [] then []
  else pcm_audio.take 6400 :: tts_frames (pcm_audio.drop 6400)
termination_by pcm_audio.length
decreasing_by
  simp only [List.length_drop]
  have : pcm_audio.length ≠ 0 := fun hz => h (List.length_eq_zero.mp hz)
  omega

-- ===================================================================
-- THEOREMS
-- ===================================================================

/-- Decoding a little-endian 32-bit encoding recovers the value. -/
theorem le32_u32le (n : Nat) (h : n < 4294967296) :
    le32 (n % 256) (n / 256 % 256) (n / 65536 % 256) (n / 16777216 % 256) = n := by
  unfold le32
  omega

/-- C9: for every raw PCM byte string of even length (a whole number of
16-bit samples, and bounded by the 32-bit RIFF size field), decoding the
encoded container round-trips exactly under the default sample-rate and
channel settings: `wav_to_pcm (pcm_to_wav x) = x`. -/
theorem c9_wav_pcm_roundtrip (pcm : List Byte) (heven : pcm.length % 2 = 0)
    (hlen : pcm.length + 36 < 4294967296) :
    wav_to_pcm (pcm_to_wav pcm settings_sample_rate settings_channels) = some pcm := by
  unfold pcm_to_wav wav_header settings_sample_rate settings_channels u32le u16le
  norm_num
  conv_lhs => whnf
  rw [le32_u32le pcm.length (by omega)]
  norm_num [le16]
  omega

/-- Witness for C9 at the concrete even-length input `[1, 2, 3, 4]`. -/
theorem c9_wav_pcm_roundtrip_witness :
    ([1, 2, 3, 4] : List Byte).length % 2 = 0 ∧
    wav_to_pcm (pcm_to_wav [1, 2, 3, 4] settings_sample_rate settings_channels) =
      some [1, 2, 3, 4] :=
  ⟨by decide, c9_wav_pcm_roundtrip [1, 2, 3, 4] (by decide) (by decide)⟩

/-- C10 (amended): an audio chunk shorter than 4 bytes is classified
silent by `detect_silence` for any threshold, its own RMS is exactly 0,
and (absent the max-recording timeout) it advances the consecutive-silence
counter; however its bytes still join the accumulated buffer, so — contrary
to the original claim — such frames can contribute energy toward the
buffer-level minimum speech-energy floor (see the counterexample). -/
theorem c10_short_chunk_silent_zero_rms (chunk : List Byte) (threshold : Nat)
    (cfg : SegConfig) (st : SegState) (now : Nat)
    (hshort : chunk.length < 4) :
    detect_silence chunk threshold = some true ∧
    calculate_rms_sq chunk = some 0 ∧
    (¬ cfg.max_recording_time_ms <
        now - (if st.is_recording then st.recording_start else now) →
      seg_counter cfg st now chunk = some (st.silence_counter + 1)) := by
  refine ⟨?_, ?_, ?_⟩
  · unfold detect_silence
    simp [hshort]
  · unfold calculate_rms_sq
    simp [hshort]
  · intro hto
    unfold seg_counter detect_silence
    simp [hshort, hto]

/-- Witness for C10 at the concrete 2-byte chunk `[0, 127]` with the
default threshold and segmenter configuration. -/
theorem c10_short_chunk_silent_zero_rms_witness :
    ([0, 127] : List Byte).length < 4 ∧
    detect_silence [0, 127] 500 = some true ∧
    calculate_rms_sq [0, 127] = some 0 ∧
    seg_counter default_seg_config idle_state 0 [0, 127] = some 1 := by
  have h := c10_short_chunk_silent_zero_rms [0, 127] 500 default_seg_config
    idle_state 0 (by decide)
  exact ⟨by decide, h.1, h.2.1, h.2.2 (by decide)⟩

/-- C10 counterexample: the original claim says degenerate (< 4 byte)
frames "can never contribute energy toward the minimum speech-energy
floor".  But the buffer-level RMS is computed over the concatenation of
all received bytes: two 2-byte chunks, each individually silent with RMS
exactly 0, concatenate to a 4-byte buffer whose mean-square amplitude
1057030144 is far above the floor `800² = 640000`. -/
theorem c10_short_chunks_contribute_energy :
    detect_silence [0, 127] 500 = some true ∧
    calculate_rms_sq [0, 127] = some 0 ∧
    calculate_rms_sq ([0, 127] ++ [0, 127]) = some 1057030144 ∧
    min_speech_rms_sq ≤ 1057030144 := by
  refine ⟨by decide, by decide, ?_, by decide⟩
  show calculate_rms_sq [0, 127, 0, 127] = some 1057030144
  unfold calculate_rms_sq
  norm_num [unpack16, toInt16]

/-- C7 counterexample: the claim says every transmitted frame has exactly
the fixed size 6400, the final partial frame being zero-padded.  The code
pads nothing: a 1-byte synthesized buffer is transmitted as a single
1-byte frame. -/
theorem c7_no_zero_padding :
    tts_frames [7] = [[7]] ∧ (([7] : List Byte).length = 6400 → False) := by
  refine ⟨?_, by decide⟩
  rw [tts_frames]
  norm_num
  rw [tts_frames]
  simp

/-- C7 (amended): the synthesized buffer is split into successive
6400-byte transport frames, transmitted in order; every frame except
possibly the last has exactly 6400 bytes, every frame is non-empty and at
most 6400 bytes, and the concatenation of the frames in transmission
order is exactly the buffer (the final partial frame is sent unpadded). -/
theorem c7_tts_frames_spec (pcm : List Byte) :
    (tts_frames pcm).flatten = pcm ∧
    (∀ f ∈ (tts_frames pcm).dropLast, f.length = 6400) ∧
    (∀ f ∈ tts_frames pcm, f ≠ [] ∧ f.length ≤ 6400) := by
  induction pcm using tts_frames.induct with
  | case1 => simp [tts_frames]
  | case2 pcm hne ih =>
    obtain ⟨ih1, ih2, ih3⟩ := ih
    rw [tts_frames, dif_neg hne]
    have htake_ne : pcm.take 6400 ≠ [] := by
      simp [List.take_eq_nil_iff, hne]
    by_cases hsmall : pcm.length ≤ 6400
    · have hdrop : pcm.drop 6400 = [] := List.drop_eq_nil_of_le hsmall
      have htake : pcm.take 6400 = pcm := List.take_of_length_le hsmall
      have hnil : tts_frames ([] : List Byte) = [] := by
        rw [tts_frames]; simp
      rw [hdrop, hnil, htake]
      refine ⟨by simp, by simp, ?_⟩
      intro f hf
      have : f = pcm := by simpa using hf
      subst this
      exact ⟨hne, hsmall⟩
    · push_neg at hsmall
      have hdropne : pcm.drop 6400 ≠ [] := by
        rw [Ne, List.drop_eq_nil_iff]
        omega
      have htlen : (pcm.take 6400).length = 6400 := by
        simp [List.length_take]
        omega
      obtain ⟨y, ys, hys⟩ := List.exists_cons_of_ne_nil
        (show tts_frames (pcm.drop 6400) ≠ [] by
          rw [tts_frames, dif_neg hdropne]; simp)
      refine ⟨by simp [ih1], ?_, ?_⟩
      · intro f hf
        rw [hys, List.dropLast_cons₂] at hf
        rcases List.mem_cons.mp hf with h | h
        · rw [h]; exact htlen
        · exact ih2 f (by rw [hys]; exact h)
      · intro f hf
        rcases List.mem_cons.mp hf with h | h
        · rw [h]; exact ⟨htake_ne, by rw [htlen]⟩
        · exact ih3 f h

/-- Witness for C7's amended theorem at the concrete buffer `[1, 2, 3]`:
the lone frame is the whole buffer, non-empty and within the frame size. -/
theorem c7_tts_frames_spec_witness :
    (tts_frames [1, 2, 3]).flatten = [1, 2, 3] ∧
    ([1, 2, 3] : List Byte) ≠ [] ∧ ([1, 2, 3] : List Byte).length ≤ 6400 :=
  ⟨(c7_tts_frames_spec [1, 2, 3]).1,
   (c7_tts_frames_spec [1, 2, 3]).2.2 [1, 2, 3] (by
      simp [tts_frames])⟩

/-- C2 counterexample: `execute_tool` has no `try`/`except` around the
handler call, so a handler exception escapes.  Concretely, calling the
registered tool `log_health` with empty arguments (which the caller in
`get_response` produces whenever the accumulated tool-input JSON fails to
parse) raises `TypeError` — the required parameters `metric` and `value`
are missing — even though every handler body here returns normally. -/
theorem c2_handler_exception_escapes :
    execute_tool (aegis_handlers (fun _ _ => .ok "\x7b\x7d")) "log_health" [] =
      .exn "TypeError" := by
  decide

/-- C2 (amended): an unknown tool name resolves to the structured error
payload, but an exception raised by the tool handler — a keyword-binding
`TypeError` or an exception from the handler body — propagates out of
`execute_tool` uncaught (it is only caught at the pipeline turn
boundary in `process_pipeline`). -/
theorem c2_execute_tool_spec (handlers : List (String × PyHandler))
    (name : String) (arguments : List (String × String)) :
    (handlers.lookup name = none →
      execute_tool handlers name arguments = .ok (unknown_tool_payload name)) ∧
    (∀ h, handlers.lookup name = some h → kwargsBindOk h arguments = false →
      execute_tool handlers name arguments = .exn "TypeError") ∧
    (∀ h msg, handlers.lookup name = some h → kwargsBindOk h arguments = true →
      h.body arguments = .exn msg →
      execute_tool handlers name arguments = .exn msg) := by
  refine ⟨?_, ?_, ?_⟩
  · intro hnone
    unfold execute_tool
    rw [hnone]
  · intro h hsome hbind
    unfold execute_tool
    rw [hsome]
    simp [hbind]
  · intro h msg hsome hbind hbody
    unfold execute_tool
    rw [hsome]
    simp [hbind, hbody]

/-- Witness for C2's amended theorem: the unknown-name payload, a
binding `TypeError`, and a propagated body exception, each at concrete
inputs over the registry's handler signatures. -/
theorem c2_execute_tool_spec_witness :
    execute_tool (aegis_handlers (fun _ _ => .ok "r")) "nonexistent_tool" [] =
      .ok (unknown_tool_payload "nonexistent_tool") ∧
    execute_tool (aegis_handlers (fun _ _ => .ok "r")) "log_health" [] =
      .exn "TypeError" ∧
    execute_tool (aegis_handlers (fun _ _ => .exn "DatabaseError")) "log_health"
      [("metric", "m"), ("value", "7")] = .exn "DatabaseError" :=
  ⟨(c2_execute_tool_spec (aegis_handlers (fun _ _ => .ok "r")) "nonexistent_tool" []).1
      (by rfl),
   (c2_execute_tool_spec (aegis_handlers (fun _ _ => .ok "r")) "log_health" []).2.1
      _ (by rfl) (by decide),
   (c2_execute_tool_spec (aegis_handlers (fun _ _ => .exn "DatabaseError")) "log_health"
      [("metric", "m"), ("value", "7")]).2.2 _ "DatabaseError" (by rfl) (by decide) (by rfl)⟩

/-- Every request issued by the tool-use round loop carries the model id
the loop was started with. -/
theorem get_response_go_models (provider : ModelRequest → StreamRound)
    (executor : String → String → String) (model : String) :
    ∀ fuel msgs acc reqs, (∀ r ∈ reqs, r.model = model) →
      ∀ r ∈ (get_response_go provider executor model fuel msgs acc reqs).1,
        r.model = model := by
  intro fuel
  induction fuel with
  | zero => intro msgs acc reqs hreqs r hr; exact hreqs r hr
  | succ n ih =>
    intro msgs acc reqs hreqs r hr
    rw [get_response_go] at hr
    by_cases htools : (provider ⟨model, msgs⟩).tools.isEmpty
    · simp only [htools, if_true] at hr
      rcases List.mem_append.mp hr with h | h
      · exact hreqs r h
      · simp at h
        rw [h]
    · simp only [htools, if_false] at hr
      refine ih _ _ _ ?_ r hr
      intro r' hr'
      rcases List.mem_append.mp hr' with h | h
      · exact hreqs r' h
      · simp at h
        rw [h]

/-- C8 counterexample: the claim lists "why" among the keywords that route
to the deeper model, but the trigger list only contains `"why am i"` and
`"why do i"`: the text "why is the sky blue" contains "why"
(case-insensitively) yet is routed to the fast Haiku model. -/
theorem c8_why_alone_routes_haiku :
    containsSub "why".toList ("why is the sky blue".toList.map Char.toLower) = true ∧
    select_model "why is the sky blue" = claude_haiku_model ∧
    claude_haiku_model ≠ claude_opus_model := by
  refine ⟨by decide, by decide, by decide⟩

/-- C8 (amended): model selection is a deterministic pure function of the
user text, evaluated once per turn: a text containing one of the
`OPUS_TRIGGERS` substrings — "analyze", "pattern", "trend", "plan",
"correlat", "compare", "why am i", "why do i", "what's causing",
"relationship between", "over time", "savings goal", "financial plan",
"budget plan" — case-insensitively selects the Opus model, every other
text selects the Haiku model, and every request of the turn's tool-use
loop uses the text's selected model (it is not re-evaluated per round). -/
theorem c8_select_model_spec (user_text : String) :
    (OPUS_TRIGGERS.any
        (fun trigger => containsSub trigger (user_text.toList.map Char.toLower)) = true →
      select_model user_text = claude_opus_model) ∧
    (OPUS_TRIGGERS.any
        (fun trigger => containsSub trigger (user_text.toList.map Char.toLower)) = false →
      select_model user_text = claude_haiku_model) ∧
    (∀ provider executor history,
      ∀ r ∈ (get_response provider executor history user_text).requests,
        r.model = select_model user_text) := by
  refine ⟨?_, ?_, ?_⟩
  · intro htrig
    unfold select_model
    dsimp only
    rw [if_pos htrig]
  · intro htrig
    unfold select_model
    dsimp only
    rw [if_neg]
    rw [htrig]
    decide
  · intro provider executor history r hr
    unfold get_response at hr
    exact get_response_go_models provider executor (select_model user_text)
      max_tool_rounds _ "" [] (by simp) r hr

/-- Witness for C8's amended theorem: "analyze my sleep" matches the
trigger "analyze" and routes to Opus, and the one request of a tool-free
turn carries that model. -/
theorem c8_select_model_spec_witness :
    select_model "analyze my sleep" = claude_opus_model ∧
    (⟨select_model "analyze my sleep", [⟨"user", "analyze my sleep"⟩]⟩ : ModelRequest).model =
      select_model "analyze my sleep" :=
  ⟨(c8_select_model_spec "analyze my sleep").1 (by decide),
   (c8_select_model_spec "analyze my sleep").2.2
     (fun _ => ⟨"Done.", [], ""⟩) (fun _ _ => "") []
     ⟨select_model "analyze my sleep", [⟨"user", "analyze my sleep"⟩]⟩
     (by decide)⟩

/-- The tool-use round loop issues at most `fuel` further requests. -/
theorem get_response_go_len (provider : ModelRequest → StreamRound)
    (executor : String → String → String) (model : String) :
    ∀ fuel msgs acc reqs,
      (get_response_go provider executor model fuel msgs acc reqs).1.length ≤
        reqs.length + fuel := by
  intro fuel
  induction fuel with
  | zero => intro msgs acc reqs; simp [get_response_go]
  | succ n ih =>
    intro msgs acc reqs
    rw [get_response_go]
    by_cases htools : (provider ⟨model, msgs⟩).tools.isEmpty
    · simp [htools]
    · simp only [htools, if_false]
      calc (get_response_go provider executor model n _ _ _).1.length
          ≤ (reqs ++ [(⟨model, msgs⟩ : ModelRequest)]).length + n := ih _ _ _
        _ ≤ reqs.length + (n + 1) := by
            simp only [List.length_append, List.length_cons, List.length_nil]
            omega

/-- Against a provider that requests a tool in every round, the loop
issues exactly `fuel` requests before stopping. -/
theorem get_response_go_len_exact (provider : ModelRequest → StreamRound)
    (executor : String → String → String) (model : String)
    (halways : ∀ req, (provider req).tools ≠ []) :
    ∀ fuel msgs acc reqs,
      (get_response_go provider executor model fuel msgs acc reqs).1.length =
        reqs.length + fuel := by
  intro fuel
  induction fuel with
  | zero => intro msgs acc reqs; simp [get_response_go]
  | succ n ih =>
    intro msgs acc reqs
    rw [get_response_go]
    have htools : (provider ⟨model, msgs⟩).tools.isEmpty = false := by
      simp [halways ⟨model, msgs⟩]
    simp only [htools, if_false, Bool.false_eq_true]
    rw [ih]
    simp
    omega

/-- C3: the conversation loop performs at most `max_tool_rounds = 5`
rounds of model requests per turn; a model stream that requests a tool
invocation in every round is stopped after exactly 5 rounds; and in any
round whose stream produces no tool-use block, the loop terminates in
that round, issuing no further request. -/
theorem c3_tool_loop_bounded (provider : ModelRequest → StreamRound)
    (executor : String → String → String) (history : List Msg)
    (user_text : String) :
    (get_response provider executor history user_text).requests.length ≤
      max_tool_rounds ∧
    ((∀ req, (provider req).tools ≠ []) →
      (get_response provider executor history user_text).requests.length =
        max_tool_rounds) ∧
    (∀ model fuel msgs acc reqs, (provider ⟨model, msgs⟩).tools = [] →
      get_response_go provider executor model (fuel + 1) msgs acc reqs =
        (reqs ++ [⟨model, msgs⟩], acc ++ (provider ⟨model, msgs⟩).text)) := by
  refine ⟨?_, ?_, ?_⟩
  · unfold get_response
    have := get_response_go_len provider executor (select_model user_text)
      max_tool_rounds (history ++ [⟨"user", user_text⟩]) "" []
    simpa using this
  · intro halways
    unfold get_response
    have := get_response_go_len_exact provider executor (select_model user_text)
      halways max_tool_rounds (history ++ [⟨"user", user_text⟩]) "" []
    simpa using this
  · intro model fuel msgs acc reqs htools
    rw [get_response_go]
    simp [htools]

/-- Witness for C3 with a provider stub that always returns a tool
invocation (exactly 5 requests) and one whose stream is tool-free (the
loop stops within the first round). -/
theorem c3_tool_loop_bounded_witness :
    (get_response (fun _ => ⟨"t", [⟨"id1", "log_health", ""⟩], "c"⟩)
        (fun _ _ => "r") [] "hi").requests.length = max_tool_rounds ∧
    get_response_go (fun _ => ⟨"Done.", [], ""⟩) (fun _ _ => "r") "m" 1 [] "" [] =
      ([⟨"m", []⟩], "Done.") :=
  ⟨(c3_tool_loop_bounded (fun _ => ⟨"t", [⟨"id1", "log_health", ""⟩], "c"⟩)
      (fun _ _ => "r") [] "hi").2.1 (fun _ => by simp),
   (c3_tool_loop_bounded (fun _ => ⟨"Done.", [], ""⟩) (fun _ _ => "r") [] "x").2.2
      "m" 0 [] "" [] rfl⟩

/-- One completed turn keeps the conversation history within the cap. -/
theorem get_response_history_len (provider : ModelRequest → StreamRound)
    (executor : String → String → String) (history : List Msg)
    (user_text : String) (hlen : history.length ≤ 40) :
    (get_response provider executor history user_text).history.length ≤ 40 := by
  unfold get_response truncate_history
  dsimp only
  split
  · rename_i hover
    simp only [List.length_drop, List.length_append, List.length_cons,
      List.length_nil] at hover ⊢
    omega
  · rename_i hle
    push_neg at hle
    simpa using hle

/-- C4: after any number of completed turns starting within the cap, the
dialogue history length never exceeds the cap of 40 entries; whenever
truncation applies it evicts the oldest entries first — the kept history
is a suffix of the pre-truncation history — and when the cap is exceeded
it preserves exactly the most recent 20 entries. -/
theorem c4_history_bounded_fifo (provider : ModelRequest → StreamRound)
    (executor : String → String → String) (h0 : List Msg)
    (turns : List String) (hlen : h0.length ≤ 40) :
    (run_turns provider executor h0 turns).length ≤ 40 ∧
    (∀ h : List Msg, truncate_history h <:+ h) ∧
    (∀ h : List Msg, 40 < h.length →
      truncate_history h = h.drop (h.length - 20) ∧
      (truncate_history h).length = 20) := by
  refine ⟨?_, ?_, ?_⟩
  · induction turns generalizing h0 with
    | nil => simpa [run_turns] using hlen
    | cons t ts ih =>
      have h1 := get_response_history_len provider executor h0 t hlen
      have := ih (get_response provider executor h0 t).history h1
      simpa [run_turns] using this
  · intro h
    unfold truncate_history
    split
    · exact List.drop_suffix _ _
    · exact List.suffix_refl _
  · intro h hover
    unfold truncate_history
    rw [if_pos hover]
    refine ⟨rfl, ?_⟩
    simp
    omega

/-- Witness for C4: a fresh client running two turns against a tool-free
provider stays within the cap, and a 41-entry history is truncated to
exactly its 20 most recent entries. -/
theorem c4_history_bounded_fifo_witness :
    (run_turns (fun _ => ⟨"Done.", [], ""⟩) (fun _ _ => "r") [] ["a", "b"]).length ≤ 40 ∧
    (truncate_history (List.replicate 41 ⟨"user", "x"⟩)).length = 20 :=
  ⟨(c4_history_bounded_fifo (fun _ => ⟨"Done.", [], ""⟩) (fun _ _ => "r") []
      ["a", "b"] (by decide)).1,
   ((c4_history_bounded_fifo (fun _ => ⟨"Done.", [], ""⟩) (fun _ _ => "r") []
      ["a", "b"] (by decide)).2.2 (List.replicate 41 ⟨"user", "x"⟩) (by simp)).2⟩
theorem removeSpaces_append (a b : List Char) :
    removeSpaces (a ++ b) = removeSpaces a ++ removeSpaces b := by
  simp [removeSpaces]

theorem removeSpaces_space_cons (c : Char) (h : pyIsSpace c = true) (l : List Char) :
    removeSpaces (c :: l) = removeSpaces l := by
  simp [removeSpaces, h]

theorem removeSpaces_reverse (l : List Char) :
    removeSpaces l.reverse = (removeSpaces l).reverse := by
  simp [removeSpaces, List.filter_reverse]

theorem removeSpaces_dropWhile (l : List Char) :
    removeSpaces (l.dropWhile pyIsSpace) = removeSpaces l := by
  induction l with
  | nil => rfl
  | cons c rest ih =>
    rw [List.dropWhile_cons]
    by_cases h : pyIsSpace c
    · rw [if_pos h, ih, removeSpaces_space_cons c h]
    · rw [if_neg h]

theorem removeSpaces_pyStrip (s : List Char) :
    removeSpaces (pyStrip s) = removeSpaces s := by
  unfold pyStrip
  rw [removeSpaces_reverse, removeSpaces_dropWhile, removeSpaces_reverse,
    removeSpaces_dropWhile, List.reverse_reverse]

theorem splitGo_flatten (cs : List Char) : ∀ (prevB inSep : Bool) (acc : List Char),
    removeSpaces (splitGo prevB inSep cs acc).flatten =
      removeSpaces (acc.reverse ++ cs) := by
  induction cs with
  | nil =>
    intro prevB inSep acc
    simp [splitGo]
  | cons c rest ih =>
    intro prevB inSep acc
    cases inSep with
    | true =>
      rw [splitGo]
      by_cases hsp : pyIsSpace c
      · rw [if_pos hsp, ih]
        rw [removeSpaces_append, removeSpaces_append, removeSpaces_space_cons c hsp]
      · rw [if_neg hsp, ih]
        simp [removeSpaces_append]
    | false =>
      rw [splitGo]
      by_cases hb : (prevB && pyIsSpace c) = true
      · rw [if_pos hb]
        have hsp : pyIsSpace c = true := by
          simp at hb
          exact hb.2
        simp only [List.flatten_cons, removeSpaces_append, ih,
          removeSpaces_space_cons c hsp]
        simp [removeSpaces]
      · rw [if_neg hb, ih]
        simp [removeSpaces_append]

theorem splitGo_ne_nil (cs : List Char) : ∀ (prevB inSep : Bool) (acc : List Char),
    splitGo prevB inSep cs acc ≠ [] := by
  induction cs with
  | nil => intro prevB inSep acc; simp [splitGo]
  | cons c rest ih =>
    intro prevB inSep acc
    cases inSep with
    | true =>
      rw [splitGo]
      by_cases hsp : pyIsSpace c
      · rw [if_pos hsp]; exact ih _ _ _
      · rw [if_neg hsp]; exact ih _ _ _
    | false =>
      rw [splitGo]
      by_cases hb : (prevB && pyIsSpace c) = true
      · rw [if_pos hb]; simp
      · rw [if_neg hb]; exact ih _ _ _

theorem flatten_dropLast_getLastD (ps : List (List Char)) (h : ps ≠ []) :
    ps.dropLast.flatten ++ ps.getLastD [] = ps.flatten := by
  induction ps with
  | nil => exact absurd rfl h
  | cons p rest ih =>
    cases rest with
    | nil => simp
    | cons q qs =>
      have h2 := ih (by simp)
      rw [List.getLastD_cons] at h2
      simp only [List.dropLast_cons₂, List.flatten_cons, List.getLastD_cons,
        List.append_assoc, h2]

theorem removeSpaces_flatten_stripped (ps : List (List Char)) :
    removeSpaces ((ps.map pyStrip).filter (fun s => !s.isEmpty)).flatten =
      removeSpaces ps.flatten := by
  induction ps with
  | nil => rfl
  | cons p rest ih =>
    simp only [List.map_cons, List.filter_cons]
    by_cases h : (pyStrip p).isEmpty
    · have hps : removeSpaces p = [] := by
        rw [← removeSpaces_pyStrip, List.isEmpty_iff.mp h]
        rfl
      simp [h, List.flatten_cons, removeSpaces_append, ih, hps]
    · simp [h, List.flatten_cons, removeSpaces_append, ih, removeSpaces_pyStrip]

theorem sentence_step_preserves (buffer chunk : List Char) :
    removeSpaces ((sentence_step buffer chunk).1.flatten ++
        (sentence_step buffer chunk).2) =
      removeSpaces (buffer ++ chunk) := by
  have hne : re_split_sentence (buffer ++ chunk) ≠ [] := by
    unfold re_split_sentence
    exact splitGo_ne_nil _ _ _ _
  have hflat : removeSpaces (re_split_sentence (buffer ++ chunk)).flatten =
      removeSpaces (buffer ++ chunk) := by
    unfold re_split_sentence
    simpa using splitGo_flatten (buffer ++ chunk) false false []
  unfold sentence_step
  dsimp only
  split
  · dsimp only
    rw [removeSpaces_append, removeSpaces_flatten_stripped,
      ← removeSpaces_append, flatten_dropLast_getLastD _ hne, hflat]
  · simp

theorem sentence_run_preserves_aux (chunks : List (List Char)) :
    ∀ (ys : List (List Char)) (buf : List Char),
    removeSpaces ((chunks.foldl
        (fun st chunk =>
          let r := sentence_step st.2 chunk
          (st.1 ++ r.1, r.2)) (ys, buf)).1.flatten ++
      (chunks.foldl
        (fun st chunk =>
          let r := sentence_step st.2 chunk
          (st.1 ++ r.1, r.2)) (ys, buf)).2) =
      removeSpaces (ys.flatten ++ buf ++ chunks.flatten) := by
  induction chunks with
  | nil =>
    intro ys buf
    simp [removeSpaces_append]
  | cons c cs ih =>
    intro ys buf
    rw [List.foldl_cons]
    dsimp only
    rw [ih]
    have hstep := sentence_step_preserves buf c
    simp only [List.flatten_append, List.flatten_cons, removeSpaces_append] at hstep ⊢
    have h2 : removeSpaces ys.flatten ++ removeSpaces (sentence_step buf c).1.flatten ++
        removeSpaces (sentence_step buf c).2 =
        removeSpaces ys.flatten ++ removeSpaces buf ++ removeSpaces c := by
      rw [List.append_assoc, hstep, ← List.append_assoc]
    rw [h2]
    simp [List.append_assoc]

theorem sentence_run_preserves (chunks : List (List Char)) :
    removeSpaces ((sentence_run chunks).1.flatten ++ (sentence_run chunks).2) =
      removeSpaces chunks.flatten := by
  unfold sentence_run
  simpa using sentence_run_preserves_aux chunks [] []

/-- C1 counterexample: concatenating the yielded sentences does not
reproduce the input exactly — the regex separator `\s+` after a sentence
boundary is consumed and each yielded sentence is stripped, so the space
in "Hi. Yo" is dropped: the turn yields "Hi." and then flushes "Yo". -/
theorem c1_sentence_concat_not_exact :
    (sentence_yields ["Hi. Yo".toList]).flatten = "Hi.Yo".toList ∧
    "Hi.Yo".toList ≠ ["Hi. Yo".toList].flatten := by
  refine ⟨by decide, by decide⟩

/-- C1 (amended): for every streamed reply and every interleaving of text
chunks, concatenating all yielded sentence chunks in order, including the
trailing buffer flushed at end of stream, reproduces the full input text
up to whitespace: every non-whitespace character appears exactly once and
in order, while the whitespace runs that separate sentences (consumed by
the split regex) and whitespace stripped at chunk edges are dropped. -/
theorem c1_sentence_stream_preserves_nonspace (chunks : List (List Char)) :
    removeSpaces (sentence_yields chunks).flatten =
      removeSpaces chunks.flatten := by
  unfold sentence_yields
  dsimp only
  have hrun := sentence_run_preserves chunks
  by_cases h : (pyStrip (sentence_run chunks).2).isEmpty
  · have hbuf : removeSpaces (sentence_run chunks).2 = [] := by
      rw [← removeSpaces_pyStrip, List.isEmpty_iff.mp h]
      rfl
    rw [removeSpaces_append, hbuf, List.append_nil] at hrun
    simp [h, hrun]
  · simp only [h, if_false, Bool.false_eq_true]
    rw [List.flatten_append, removeSpaces_append]
    simp only [List.flatten_cons, List.flatten_nil, List.append_nil]
    rw [removeSpaces_pyStrip, ← removeSpaces_append]
    exact hrun

/-- A non-silent frame (no timeout) resets the silence counter to zero,
extends the buffer, and never completes an utterance. -/
theorem audio_step_speech (cfg : SegConfig) (st : SegState) (now : Nat)
    (pcm_chunk : List Byte)
    (hdet : detect_silence pcm_chunk 500 = some false)
    (hstop : 1 ≤ cfg.silence_chunks_to_stop)
    (hto : ¬ cfg.max_recording_time_ms <
      now - (if st.is_recording then st.recording_start else now)) :
    audio_step cfg st now pcm_chunk =
      some ⟨⟨st.audio_buffer ++ pcm_chunk, 0, true,
             if st.is_recording then st.recording_start else now⟩, none, []⟩ := by
  have hcnt : seg_counter cfg st now pcm_chunk = some 0 := by
    unfold seg_counter
    rw [hdet]
    simp [hto]
  unfold audio_step
  dsimp only
  rw [hcnt]
  dsimp only
  have : ¬ (cfg.silence_chunks_to_stop ≤ 0 ∧
      3200 < (st.audio_buffer ++ pcm_chunk).length) := by
    rintro ⟨h1, _⟩
    omega
  rw [if_neg this]

/-- A silent frame that leaves the counter below the stop threshold
increments it and extends the buffer without emitting. -/
theorem audio_step_silent_quiet (cfg : SegConfig) (st : SegState) (now : Nat)
    (pcm_chunk : List Byte)
    (hdet : detect_silence pcm_chunk 500 = some true)
    (hto : ¬ cfg.max_recording_time_ms <
      now - (if st.is_recording then st.recording_start else now))
    (hlt : st.silence_counter + 1 < cfg.silence_chunks_to_stop) :
    audio_step cfg st now pcm_chunk =
      some ⟨⟨st.audio_buffer ++ pcm_chunk, st.silence_counter + 1, true,
             if st.is_recording then st.recording_start else now⟩, none, []⟩ := by
  have hcnt : seg_counter cfg st now pcm_chunk = some (st.silence_counter + 1) := by
    unfold seg_counter
    rw [hdet]
    simp [hto]
  unfold audio_step
  dsimp only
  rw [hcnt]
  dsimp only
  have : ¬ (cfg.silence_chunks_to_stop ≤ st.silence_counter + 1 ∧
      3200 < (st.audio_buffer ++ pcm_chunk).length) := by
    rintro ⟨h1, _⟩
    omega
  rw [if_neg this]

/-- A silent frame that brings the counter to the stop threshold with all
guards passing hands the whole buffer to the pipeline between a
`processing` and an `idle` status, and resets the session state. -/
theorem audio_step_emit (cfg : SegConfig) (st : SegState) (now : Nat)
    (pcm_chunk : List Byte) (q : Rat)
    (hdet : detect_silence pcm_chunk 500 = some true)
    (hto : ¬ cfg.max_recording_time_ms <
      now - (if st.is_recording then st.recording_start else now))
    (hreach : cfg.silence_chunks_to_stop ≤ st.silence_counter + 1)
    (hlen : 3200 < (st.audio_buffer ++ pcm_chunk).length)
    (hrms : calculate_rms_sq (st.audio_buffer ++ pcm_chunk) = some q)
    (hq : ¬ q < min_speech_rms_sq)
    (hdur : ¬ now - (if st.is_recording then st.recording_start else now) <
      min_recording_ms) :
    audio_step cfg st now pcm_chunk =
      some ⟨⟨[], 0, false, if st.is_recording then st.recording_start else now⟩,
            some (st.audio_buffer ++ pcm_chunk), ["processing", "idle"]⟩ := by
  have hcnt : seg_counter cfg st now pcm_chunk = some (st.silence_counter + 1) := by
    unfold seg_counter
    rw [hdet]
    simp [hto]
  unfold audio_step
  dsimp only
  rw [hcnt]
  dsimp only
  rw [if_pos ⟨hreach, hlen⟩, hrms]
  dsimp only
  rw [if_neg hq, if_neg hdur]

/-- C5: when the end-of-speech condition fires (silence counter at the
threshold with more than 3200 buffered bytes) but the buffer RMS is below
the speech floor or the elapsed recording duration is below the minimum,
the step discards the buffer, resets the recording flag and the silence
counter, hands nothing to recognition, and sends no message to the
client. -/
theorem c5_false_trigger_discard (cfg : SegConfig) (st : SegState) (now : Nat)
    (pcm_chunk : List Byte) (counter : Nat) (q : Rat)
    (hcnt : seg_counter cfg st now pcm_chunk = some counter)
    (htrig : cfg.silence_chunks_to_stop ≤ counter)
    (hlen : 3200 < (st.audio_buffer ++ pcm_chunk).length)
    (hrms : calculate_rms_sq (st.audio_buffer ++ pcm_chunk) = some q)
    (hguard : q < min_speech_rms_sq ∨
      now - (if st.is_recording then st.recording_start else now) <
        min_recording_ms) :
    audio_step cfg st now pcm_chunk =
      some ⟨⟨[], 0, false, if st.is_recording then st.recording_start else now⟩,
            none, []⟩ := by
  unfold audio_step
  dsimp only
  rw [hcnt]
  dsimp only
  rw [if_pos ⟨htrig, hlen⟩, hrms]
  dsimp only
  by_cases hq : q < min_speech_rms_sq
  · rw [if_pos hq]
  · rw [if_neg hq]
    rcases hguard with h | h
    · exact absurd h hq
    · rw [if_pos h]

theorem unpack16_flatten_pair (lo hi : Byte) (k : Nat) :
    unpack16 ((List.replicate k [lo, hi]).flatten) =
      some (List.replicate k (toInt16 lo hi)) := by
  induction k with
  | zero => rfl
  | succ n ih =>
    rw [List.replicate_succ, List.flatten_cons]
    show unpack16 (lo :: hi :: (List.replicate n [lo, hi]).flatten) = _
    rw [unpack16, ih]
    simp [List.replicate_succ]

theorem unpack16_append (a b : List Byte) (xs : List Int)
    (h : unpack16 a = some xs) :
    unpack16 (a ++ b) = (unpack16 b).map (fun ys => xs ++ ys) := by
  induction a using unpack16.induct generalizing xs with
  | case1 =>
    rw [unpack16] at h
    cases h
    show unpack16 b = (unpack16 b).map (fun ys => [] ++ ys)
    rcases hb : unpack16 b with _ | ys <;> simp [hb]
  | case2 x =>
    rw [unpack16] at h
    cases h
  | case3 lo hi rest ih =>
    rw [unpack16] at h
    rcases hrest : unpack16 rest with _ | xs'
    · rw [hrest] at h
      cases h
    · rw [hrest] at h
      have h2 : toInt16 lo hi :: xs' = xs := by simpa using h
      rw [show ((lo :: hi :: rest) ++ b) = lo :: hi :: (rest ++ b) from rfl,
        unpack16, ih xs' hrest]
      rw [← h2]
      rcases unpack16 b with _ | ys <;> simp

/-- Witness for C5: a quiet 3202-byte buffer (all-zero samples) with the
silence counter one below the default threshold receives a final silent
2-byte frame at t=600 ms: the trigger fires, the RMS floor guard fails,
and the buffer is discarded with no utterance and no client message. -/
theorem c5_false_trigger_discard_witness :
    seg_counter default_seg_config
        ⟨(List.replicate 1601 ([0, 0] : List Byte)).flatten, 7, true, 0⟩ 600 [0, 0] =
      some 8 ∧
    calculate_rms_sq ((List.replicate 1601 ([0, 0] : List Byte)).flatten ++ [0, 0]) =
      some 0 ∧
    audio_step default_seg_config
        ⟨(List.replicate 1601 ([0, 0] : List Byte)).flatten, 7, true, 0⟩ 600 [0, 0] =
      some ⟨⟨[], 0, false, 0⟩, none, []⟩ := by
  have hlen : ((List.replicate 1601 ([0, 0] : List Byte)).flatten).length = 3202 := by
    rw [List.length_flatten, List.map_replicate, List.sum_replicate]
    norm_num
  have h00 : toInt16 0 0 = 0 := by decide
  have hup : unpack16 ((List.replicate 1601 ([0, 0] : List Byte)).flatten) =
      some (List.replicate 1601 (0 : Int)) := by
    rw [unpack16_flatten_pair, h00]
  have hbuf : unpack16 ((List.replicate 1601 ([0, 0] : List Byte)).flatten ++ [0, 0]) =
      some (List.replicate 1601 (0 : Int) ++ [0]) := by
    rw [unpack16_append _ _ _ hup]
    have : unpack16 [0, 0] = some [(0 : Int)] := by decide
    rw [this]
    rfl
  have hrms : calculate_rms_sq
      ((List.replicate 1601 ([0, 0] : List Byte)).flatten ++ [0, 0]) = some 0 := by
    unfold calculate_rms_sq
    rw [if_neg (by rw [List.length_append, hlen]; norm_num)]
    rw [hbuf]
    dsimp only
    rw [List.map_append, List.map_replicate, List.sum_append, List.sum_replicate,
      List.length_append, List.length_replicate]
    norm_num
  have hcnt : seg_counter default_seg_config
      ⟨(List.replicate 1601 ([0, 0] : List Byte)).flatten, 7, true, 0⟩ 600 [0, 0] =
      some 8 := by
    unfold seg_counter
    norm_num [detect_silence, default_seg_config]
  refine ⟨hcnt, hrms, ?_⟩
  exact c5_false_trigger_discard default_seg_config
    ⟨(List.replicate 1601 ([0, 0] : List Byte)).flatten, 7, true, 0⟩ 600 [0, 0] 8 0
    hcnt (by norm_num [default_seg_config])
    (by rw [List.length_append, hlen]; norm_num)
    hrms
    (Or.inl (by norm_num [min_speech_rms_sq]))

theorem audio_run_append (cfg : SegConfig) (a b : List (Nat × List Byte)) :
    ∀ st, audio_run cfg st (a ++ b) =
      match audio_run cfg st a with
      | none => none
      | some (st1, ems) =>
          match audio_run cfg st1 b with
          | none => none
          | some (fin, ems2) => some (fin, ems ++ ems2) := by
  induction a with
  | nil =>
    intro st
    show audio_run cfg st b = _
    rcases hb : audio_run cfg st b with _ | ⟨fin, ems2⟩ <;>
      simp [audio_run, hb]
  | cons p rest ih =>
    intro st
    obtain ⟨now, chunk⟩ := p
    rw [List.cons_append, audio_run, audio_run]
    rcases hstep : audio_step cfg st now chunk with _ | out
    · rfl
    · dsimp only
      rw [ih out.state]
      rcases h1 : audio_run cfg out.state rest with _ | ⟨st1, ems1⟩
      · rfl
      · dsimp only
        rcases h2 : audio_run cfg st1 b with _ | ⟨fin, ems2⟩ <;> simp [h2]

theorem audio_run_speech_frames (cfg : SegConfig) (frames : List (Nat × List Byte))
    (hstop : 1 ≤ cfg.silence_chunks_to_stop) :
    ∀ st : SegState, st.is_recording = true → st.silence_counter = 0 →
    (∀ p ∈ frames, detect_silence p.2 500 = some false) →
    (∀ p ∈ frames, ¬ cfg.max_recording_time_ms < p.1 - st.recording_start) →
    audio_run cfg st frames =
      some (⟨st.audio_buffer ++ (frames.map Prod.snd).flatten, 0, true,
             st.recording_start⟩,
        List.replicate frames.length none) := by
  induction frames with
  | nil =>
    intro st hrec hcnt0 _ _
    obtain ⟨buf, cnt, rec, start⟩ := st
    simp only at hrec hcnt0
    subst hrec
    subst hcnt0
    simp [audio_run]
  | cons p rest ih =>
    intro st hrec hcnt0 hdet hto
    obtain ⟨now, chunk⟩ := p
    rw [audio_run]
    have hstep := audio_step_speech cfg st now chunk
      (hdet (now, chunk) (List.mem_cons_self _ _)) hstop
      (by
        rw [if_pos hrec]
        exact hto (now, chunk) (List.mem_cons_self _ _))
    rw [if_pos hrec] at hstep
    rw [hstep]
    dsimp only
    rw [ih ⟨st.audio_buffer ++ chunk, 0, true, st.recording_start⟩ rfl rfl
      (fun p hp => hdet p (List.mem_cons_of_mem _ hp))
      (fun p hp => hto p (List.mem_cons_of_mem _ hp))]
    simp [List.append_assoc, List.replicate_succ]

theorem audio_run_silent_prefix (cfg : SegConfig) (zs : List (Nat × List Byte)) :
    ∀ st : SegState, st.is_recording = true →
    (∀ p ∈ zs, detect_silence p.2 500 = some true) →
    (∀ p ∈ zs, ¬ cfg.max_recording_time_ms < p.1 - st.recording_start) →
    st.silence_counter + zs.length < cfg.silence_chunks_to_stop →
    audio_run cfg st zs =
      some (⟨st.audio_buffer ++ (zs.map Prod.snd).flatten,
             st.silence_counter + zs.length, true, st.recording_start⟩,
        List.replicate zs.length none) := by
  induction zs with
  | nil =>
    intro st hrec _ _ _
    obtain ⟨buf, cnt, rec, start⟩ := st
    simp only at hrec
    subst hrec
    simp [audio_run]
  | cons p rest ih =>
    intro st hrec hdet hto hbound
    obtain ⟨now, chunk⟩ := p
    rw [audio_run]
    have hstep := audio_step_silent_quiet cfg st now chunk
      (hdet (now, chunk) (List.mem_cons_self _ _))
      (by
        rw [if_pos hrec]
        exact hto (now, chunk) (List.mem_cons_self _ _))
      (by
        simp only [List.length_cons] at hbound
        omega)
    rw [if_pos hrec] at hstep
    rw [hstep]
    dsimp only
    rw [ih ⟨st.audio_buffer ++ chunk, st.silence_counter + 1, true,
        st.recording_start⟩ rfl
      (fun p hp => hdet p (List.mem_cons_of_mem _ hp))
      (fun p hp => hto p (List.mem_cons_of_mem _ hp))
      (by
        simp only [List.length_cons] at hbound
        simp only
        omega)]
    simp only [List.length_cons, List.map_cons, List.flatten_cons,
      List.append_assoc, List.replicate_succ]
    refine congrArg some ?_
    refine Prod.ext ?_ rfl
    dsimp only
    congr 1
    omega

theorem filterMap_id_replicate_none {α : Type} (k : Nat) :
    (List.replicate k (none : Option α)).filterMap id = [] := by
  induction k with
  | zero => rfl
  | succ n ih => rw [List.replicate_succ, List.filterMap_cons]; simpa using ih

/-- C6: from the idle state, a run of non-silent frames followed by
exactly the configured number of silent frames — with no recording
timeout, the buffer over 3200 bytes, the buffer mean-square at or above
the speech floor and the elapsed duration at least the minimum — produces
exactly one completed utterance, emitted at the last silent frame, whose
bytes are the concatenation of all frames received, after which the
session state is reset.  Combined with `audio_run_speech_frames` and
`audio_run_silent_prefix` (used in the proof), the consecutive-silence
counter is incremented on each silent frame and reset to zero on each
non-silent frame. -/
theorem c6_segmenter_one_utterance (cfg : SegConfig)
    (t1 : Nat) (ch1 : List Byte) (srest zs : List (Nat × List Byte))
    (tL : Nat) (cL : List Byte) (q : Rat)
    (hstop : 1 ≤ cfg.silence_chunks_to_stop)
    (hzlen : zs.length + 1 = cfg.silence_chunks_to_stop)
    (hspeech1 : detect_silence ch1 500 = some false)
    (hspeech : ∀ p ∈ srest, detect_silence p.2 500 = some false)
    (hsilent : ∀ p ∈ zs, detect_silence p.2 500 = some true)
    (hlastdet : detect_silence cL 500 = some true)
    (hto : ∀ p ∈ ((t1, ch1) :: srest) ++ zs ++ [(tL, cL)],
      ¬ cfg.max_recording_time_ms < p.1 - t1)
    (hdur : ¬ tL - t1 < min_recording_ms)
    (hbytes : 3200 <
      (ch1 ++ (srest.map Prod.snd).flatten ++ (zs.map Prod.snd).flatten ++ cL).length)
    (hrms : calculate_rms_sq
      (ch1 ++ (srest.map Prod.snd).flatten ++ (zs.map Prod.snd).flatten ++ cL) = some q)
    (hq : ¬ q < min_speech_rms_sq) :
    audio_run cfg idle_state (((t1, ch1) :: srest) ++ zs ++ [(tL, cL)]) =
      some (⟨[], 0, false, t1⟩,
        List.replicate (srest.length + zs.length + 1) none ++
          [some (ch1 ++ (srest.map Prod.snd).flatten ++
            (zs.map Prod.snd).flatten ++ cL)]) ∧
    (List.replicate (srest.length + zs.length + 1) (none : Option (List Byte)) ++
        [some (ch1 ++ (srest.map Prod.snd).flatten ++
          (zs.map Prod.snd).flatten ++ cL)]).filterMap id =
      [ch1 ++ (srest.map Prod.snd).flatten ++ (zs.map Prod.snd).flatten ++ cL] := by
  have hfm : (List.replicate (srest.length + zs.length + 1) (none : Option (List Byte)) ++
      [some (ch1 ++ (srest.map Prod.snd).flatten ++
        (zs.map Prod.snd).flatten ++ cL)]).filterMap id =
      [ch1 ++ (srest.map Prod.snd).flatten ++ (zs.map Prod.snd).flatten ++ cL] := by
    rw [List.filterMap_append, filterMap_id_replicate_none]
    rfl
  refine ⟨?_, hfm⟩
  -- first frame: recording starts
  have hto1 : ∀ p ∈ srest, ¬ cfg.max_recording_time_ms < p.1 - t1 := by
    intro p hp
    exact hto p (by simp [hp])
  have htoz : ∀ p ∈ zs, ¬ cfg.max_recording_time_ms < p.1 - t1 := by
    intro p hp
    exact hto p (by simp [hp])
  have htoL : ¬ cfg.max_recording_time_ms < tL - t1 := by
    exact hto (tL, cL) (by simp)
  have hstep1 : audio_step cfg idle_state t1 ch1 =
      some ⟨⟨ch1, 0, true, t1⟩, none, []⟩ := by
    have := audio_step_speech cfg idle_state t1 ch1 hspeech1 hstop
      (by simp [idle_state])
    simpa [idle_state] using this
  have hrun1 : audio_run cfg ⟨ch1, 0, true, t1⟩ srest =
      some (⟨ch1 ++ (srest.map Prod.snd).flatten, 0, true, t1⟩,
        List.replicate srest.length none) := by
    exact audio_run_speech_frames cfg srest hstop ⟨ch1, 0, true, t1⟩ rfl rfl
      hspeech hto1
  have hrun2 : audio_run cfg
      ⟨ch1 ++ (srest.map Prod.snd).flatten, 0, true, t1⟩ zs =
      some (⟨ch1 ++ (srest.map Prod.snd).flatten ++ (zs.map Prod.snd).flatten,
             zs.length, true, t1⟩,
        List.replicate zs.length none) := by
    have := audio_run_silent_prefix cfg zs
      ⟨ch1 ++ (srest.map Prod.snd).flatten, 0, true, t1⟩ rfl hsilent htoz
      (by
        simp only
        omega)
    simpa using this
  have hrun3 : audio_run cfg
      ⟨ch1 ++ (srest.map Prod.snd).flatten ++ (zs.map Prod.snd).flatten,
       zs.length, true, t1⟩ [(tL, cL)] =
      some (⟨[], 0, false, t1⟩,
        [some (ch1 ++ (srest.map Prod.snd).flatten ++
          (zs.map Prod.snd).flatten ++ cL)]) := by
    rw [audio_run]
    have hemit := audio_step_emit cfg
      ⟨ch1 ++ (srest.map Prod.snd).flatten ++ (zs.map Prod.snd).flatten,
       zs.length, true, t1⟩ tL cL q hlastdet
      (by simpa using htoL)
      (by
        simp only
        omega)
      (by simpa using hbytes)
      (by simpa using hrms)
      hq
      (by simpa using hdur)
    rw [hemit]
    dsimp only
    rw [audio_run]
    simp
  have hlist : (((t1, ch1) :: srest) ++ zs ++ [(tL, cL)]) =
      (t1, ch1) :: (srest ++ (zs ++ [(tL, cL)])) := by
    simp [List.append_assoc]
  rw [hlist, audio_run, hstep1]
  dsimp only
  rw [audio_run_append cfg srest (zs ++ [(tL, cL)]) ⟨ch1, 0, true, t1⟩, hrun1]
  dsimp only
  rw [audio_run_append cfg zs [(tL, cL)]
    ⟨ch1 ++ (srest.map Prod.snd).flatten, 0, true, t1⟩, hrun2]
  dsimp only
  rw [hrun3]
  dsimp only
  refine congrArg some (Prod.ext rfl ?_)
  dsimp only
  rw [show srest.length + zs.length + 1 = (srest.length + zs.length) + 1 from rfl]
  rw [List.replicate_succ, List.replicate_add]
  simp [List.append_assoc]
  rw [List.replicate_add, List.append_assoc]

/-- Witness for C6: stop threshold 1, one loud 3202-byte frame (1601
samples of amplitude 1000) at t=0, one silent 2-byte frame at t=600 ms:
exactly one utterance equal to the concatenation of both frames. -/
theorem c6_segmenter_one_utterance_witness :
    audio_run ⟨1, 10000⟩ idle_state
        [(0, (List.replicate 1601 ([232, 3] : List Byte)).flatten), (600, [0, 0])] =
      some (⟨[], 0, false, 0⟩,
        [none, some ((List.replicate 1601 ([232, 3] : List Byte)).flatten ++ [0, 0])]) ∧
    ([(none : Option (List Byte)),
        some ((List.replicate 1601 ([232, 3] : List Byte)).flatten ++ [0, 0])].filterMap id) =
      [(List.replicate 1601 ([232, 3] : List Byte)).flatten ++ [0, 0]] := by
  have hlen2 : ((List.replicate 1601 ([232, 3] : List Byte)).flatten).length = 3202 := by
    rw [List.length_flatten, List.map_replicate, List.sum_replicate]
    norm_num
  have h1000 : toInt16 232 3 = 1000 := by decide
  have hup2 : unpack16 ((List.replicate 1601 ([232, 3] : List Byte)).flatten) =
      some (List.replicate 1601 (1000 : Int)) := by
    rw [unpack16_flatten_pair, h1000]
  have hdet_loud : detect_silence ((List.replicate 1601 ([232, 3] : List Byte)).flatten)
      500 = some false := by
    unfold detect_silence
    rw [if_neg (by rw [hlen2]; norm_num), hup2]
    dsimp only
    rw [List.map_replicate, List.sum_replicate, List.length_replicate, smul_eq_mul]
    norm_num
  have hbuf2 : unpack16 ((List.replicate 1601 ([232, 3] : List Byte)).flatten ++ [0, 0]) =
      some (List.replicate 1601 (1000 : Int) ++ [0]) := by
    rw [unpack16_append _ _ _ hup2]
    have : unpack16 [0, 0] = some [(0 : Int)] := by decide
    rw [this]
    rfl
  have hrms2 : calculate_rms_sq
      ((List.replicate 1601 ([232, 3] : List Byte)).flatten ++ [0, 0]) =
      some ((1601000000 : Rat) / 1602) := by
    unfold calculate_rms_sq
    rw [if_neg (by rw [List.length_append, hlen2]; norm_num), hbuf2]
    dsimp only
    rw [List.map_append, List.map_replicate, List.sum_append, List.sum_replicate,
      List.length_append, List.length_replicate, nsmul_eq_mul]
    norm_num
  have h := c6_segmenter_one_utterance ⟨1, 10000⟩ 0
    ((List.replicate 1601 ([232, 3] : List Byte)).flatten) [] [] 600 [0, 0]
    ((1601000000 : Rat) / 1602)
    (by decide) (by decide) hdet_loud
    (by intro p hp; cases hp)
    (by intro p hp; cases hp)
    (by decide)
    (by
      intro p hp
      simp only [List.cons_append, List.nil_append, List.mem_cons,
        List.not_mem_nil, or_false, List.mem_singleton] at hp
      rcases hp with rfl | rfl
      · decide
      · decide)
    (by norm_num [min_recording_ms])
    (by
      simp only [List.map_nil, List.flatten_nil, List.append_nil,
        List.length_append, hlen2]
      norm_num)
    (by
      simp only [List.map_nil, List.flatten_nil, List.append_nil]
      exact hrms2)
    (by norm_num [min_speech_rms_sq])
  refine ⟨?_, by rfl⟩
  have h1 := h.1
  simp only [List.length_nil, List.map_nil, List.flatten_nil, List.append_nil,
    List.cons_append, List.nil_append, Nat.zero_add, List.replicate_one] at h1
  exact h1
